import Mathlib

/-!
Verification of the Pattern-Strategy-TextFormatter program.

The source is a single C++ file implementing three text-formatting
strategies (uppercase, lowercase, title case) behind an interface
ITextFormatter, a context class TextProcessor holding at most one
strategy, and a main function mapping an integer selector to a strategy.

Text is modelled as a list of byte values (Nat). The character
classification and case-mapping functions model the C standard library
functions in the default C locale with ASCII semantics: toupper and
tolower change only the 26 ASCII letters; isspace recognises the six
standard whitespace characters.
-/

set_option autoImplicit false

namespace TextFormatter

/-- Model of C toupper in the C locale: maps a-z (97..122) to A-Z, identity elsewhere. -/
def toupper (c : Nat) : Nat :=
  if 97 ≤ c ∧ c ≤ 122 then c - 32 else c

/-- Model of C tolower in the C locale: maps A-Z (65..90) to a-z, identity elsewhere. -/
def tolower (c : Nat) : Nat :=
  if 65 ≤ c ∧ c ≤ 90 then c + 32 else c

/-- Model of C isspace in the C locale: space (32) and the control characters 9..13. -/
def isspace (c : Nat) : Bool :=
  decide (c = 32 ∨ (9 ≤ c ∧ c ≤ 13))

/-- Model of C isalpha in the C locale: the 52 ASCII letters. -/
def isalpha (c : Nat) : Bool :=
  decide ((65 ≤ c ∧ c ≤ 90) ∨ (97 ≤ c ∧ c ≤ 122))

/-- Model of C islower in the C locale. -/
def islower (c : Nat) : Bool :=
  decide (97 ≤ c ∧ c ≤ 122)

/-- Model of C isupper in the C locale. -/
def isupper (c : Nat) : Bool :=
  decide (65 ≤ c ∧ c ≤ 90)

/-- UpperCaseFormatter.format: copies the input and maps toupper over every character. -/
def UpperCaseFormatter.format (text : List Nat) : List Nat :=
  text.map toupper

/-- LowerCaseFormatter.format: copies the input and maps tolower over every character. -/
def LowerCaseFormatter.format (text : List Nat) : List Nat :=
  text.map tolower

/-- The loop body of TitleCaseFormatter.format: one left-to-right pass carrying
the boolean flag named capitalize in the source. Whitespace passes through and
sets the flag; a non-whitespace character is uppercased when the flag is set
(clearing it) and lowercased otherwise. -/
def titleAux : Bool → List Nat → List Nat
  | _, [] => []
  | b, c :: cs =>
    if isspace c then c :: titleAux true cs
    else if b then toupper c :: titleAux false cs
    else tolower c :: titleAux false cs

/-- TitleCaseFormatter.format: the single pass with the flag initialised to true. -/
def TitleCaseFormatter.format (text : List Nat) : List Nat :=
  titleAux true text

/-- The three concrete strategies of the program. -/
inductive Formatter where
  | upper : Formatter
  | lower : Formatter
  | title : Formatter
deriving DecidableEq

/-- Dispatch through the ITextFormatter interface to the concrete format method. -/
def Formatter.format : Formatter → List Nat → List Nat
  | .upper, text => UpperCaseFormatter.format text
  | .lower, text => LowerCaseFormatter.format text
  | .title, text => TitleCaseFormatter.format text

/-- The context class: its single field models the unique_ptr member, with
none standing for nullptr. -/
structure TextProcessor where
  formatter : Option Formatter
deriving DecidableEq

/-- The TextProcessor constructor: the formatter member starts as nullptr. -/
def TextProcessor.new : TextProcessor :=
  { formatter := none }

/-- TextProcessor.setFormatter: replaces the owned strategy. -/
def TextProcessor.setFormatter (p : TextProcessor) (f : Option Formatter) : TextProcessor :=
  { p with formatter := f }

/-- TextProcessor.format: delegates to the owned strategy when one is set,
otherwise returns the input unchanged. -/
def TextProcessor.format (p : TextProcessor) (text : List Nat) : List Nat :=
  match p.formatter with
  | some f => f.format text
  | none => text

/-- A call of the TextProcessor.format method viewed as a state transformer:
the returned pair is the result together with the processor state after the
call. The method body only reads the formatter member, so the state after the
call is the state before it. -/
def TextProcessor.formatCall (p : TextProcessor) (text : List Nat) : List Nat × TextProcessor :=
  (p.format text, p)

/-- What main prints after reading the input line and the selector: the
diagnostic notice, when one is printed, and the result line. -/
structure MainOutput where
  notice : Option String
  result : List Nat
deriving DecidableEq

/-- The switch statement of main: cases 1, 2, 3 install the corresponding
strategy into a freshly constructed processor; the default case installs
nothing and prints the diagnostic. -/
def switchCase (choice : Int) : TextProcessor × Option String :=
  if choice = 1 then (TextProcessor.new.setFormatter (some .upper), none)
  else if choice = 2 then (TextProcessor.new.setFormatter (some .lower), none)
  else if choice = 3 then (TextProcessor.new.setFormatter (some .title), none)
  else (TextProcessor.new, some "Invalid choice. Using default (no formatting).\n")

/-- The observable behaviour of main on a given input line and selector value:
run the switch, then apply the processor to the input. -/
def runMain (input : List Nat) (choice : Int) : MainOutput :=
  { notice := (switchCase choice).2
    result := ((switchCase choice).1).format input }

/-- Modelled from the spec: the title-case transformation that the spec
sentence of claim C1 describes. It is not part of the source; it differs from
TitleCaseFormatter.format in that capitalisation lands on the first LETTER of
each maximal non-whitespace run, skipping over leading non-letter characters
of the run, while the rest of the run is lowercased. The flag records that the
first letter of the current run has not yet been seen. -/
def specTitleClaimAux : Bool → List Nat → List Nat
  | _, [] => []
  | awaiting, c :: cs =>
    if isspace c then c :: specTitleClaimAux true cs
    else if awaiting ∧ isalpha c then toupper c :: specTitleClaimAux false cs
    else if awaiting then tolower c :: specTitleClaimAux true cs
    else tolower c :: specTitleClaimAux false cs

/-- Modelled from the spec: claim C1 text applied from the start of the string. -/
def specTitleClaim (s : List Nat) : List Nat :=
  specTitleClaimAux true s

/-- Whether the character at position i of s would be capitalised by the pass
of titleAux entered with flag b: at position 0 this is the incoming flag, and
at a later position it is whether the previous character is whitespace. -/
def capAt (b : Bool) (s : List Nat) : Nat → Bool
  | 0 => b
  | j + 1 => isspace (s.getD j 0)

/-! ### Character-level lemmas -/

theorem toupper_eq_of_not_lower {c : Nat} (h : islower c = false) : toupper c = c := by
  simp only [islower, decide_eq_false_iff_not] at h
  simp only [toupper, if_neg h]

theorem tolower_eq_of_not_upper {c : Nat} (h : isupper c = false) : tolower c = c := by
  simp only [isupper, decide_eq_false_iff_not] at h
  simp only [tolower, if_neg h]

theorem islower_toupper (c : Nat) : islower (toupper c) = false := by
  simp only [toupper, islower]
  split <;> simp <;> omega

theorem isupper_tolower (c : Nat) : isupper (tolower c) = false := by
  simp only [tolower, isupper]
  split <;> simp <;> omega

theorem toupper_toupper (c : Nat) : toupper (toupper c) = toupper c :=
  toupper_eq_of_not_lower (islower_toupper c)

theorem tolower_tolower (c : Nat) : tolower (tolower c) = tolower c :=
  tolower_eq_of_not_upper (isupper_tolower c)

theorem toupper_eq_of_not_alpha {c : Nat} (h : isalpha c = false) : toupper c = c := by
  simp only [isalpha, decide_eq_false_iff_not, not_or] at h
  exact toupper_eq_of_not_lower (by simp only [islower]; simpa using h.2)

theorem tolower_eq_of_not_alpha {c : Nat} (h : isalpha c = false) : tolower c = c := by
  simp only [isalpha, decide_eq_false_iff_not, not_or] at h
  exact tolower_eq_of_not_upper (by simp only [isupper]; simpa using h.1)

theorem isspace_toupper (c : Nat) : isspace (toupper c) = isspace c := by
  simp only [toupper, isspace, decide_eq_decide]
  split
  · omega
  · rfl

theorem isspace_tolower (c : Nat) : isspace (tolower c) = isspace c := by
  simp only [tolower, isspace, decide_eq_decide]
  split
  · omega
  · rfl

/-! ### Lemmas about the title-case pass -/

theorem titleAux_length (b : Bool) (s : List Nat) : (titleAux b s).length = s.length := by
  induction s generalizing b with
  | nil => rfl
  | cons c cs ih =>
    simp only [titleAux]
    split
    · simp [ih]
    · split <;> simp [ih]

theorem capAt_cons (b : Bool) (c : Nat) (cs : List Nat) (j : Nat) :
    capAt b (c :: cs) (j + 1) = capAt (isspace c) cs j := by
  cases j <;> rfl

theorem titleAux_getD (b : Bool) (s : List Nat) (i : Nat) (h : i < s.length) :
    (titleAux b s).getD i 0 =
      (if isspace (s.getD i 0) then s.getD i 0
       else if capAt b s i then toupper (s.getD i 0)
       else tolower (s.getD i 0)) := by
  induction s generalizing b i with
  | nil => simp at h
  | cons c cs ih =>
    cases i with
    | zero =>
      simp only [titleAux, List.getD_cons_zero, capAt]
      cases hsp : isspace c with
      | true => simp [hsp]
      | false => cases b <;> simp [hsp]
    | succ j =>
      have hj : j < cs.length := by simpa using Nat.lt_of_succ_lt_succ h
      have key := ih (isspace c) j hj
      simp only [titleAux, List.getD_cons_succ, capAt_cons]
      cases hsp : isspace c with
      | true => simpa [hsp] using key
      | false => cases b <;> simpa [hsp] using key

theorem titleAux_idem (b : Bool) (s : List Nat) :
    titleAux b (titleAux b s) = titleAux b s := by
  induction s generalizing b with
  | nil => rfl
  | cons c cs ih =>
    cases hsp : isspace c with
    | true => simp [titleAux, hsp, ih]
    | false =>
      cases b with
      | true => simp [titleAux, hsp, isspace_toupper, toupper_toupper, ih]
      | false => simp [titleAux, hsp, isspace_tolower, tolower_tolower, ih]

theorem titleAux_ws_append (ws s : List Nat)
    (h : ∀ c ∈ ws, isspace c = true) :
    titleAux true (ws ++ s) = ws ++ titleAux true s := by
  induction ws with
  | nil => rfl
  | cons w ws ih =>
    have hw : isspace w = true := h w (by simp)
    simp only [List.cons_append, titleAux, if_pos hw]
    exact congrArg (w :: ·) (ih (fun c hc => h c (by simp [hc])))

theorem map_getD (f : Nat → Nat) (s : List Nat) (i : Nat) (h : i < s.length) :
    (s.map f).getD i 0 = f (s.getD i 0) := by
  induction s generalizing i with
  | nil => simp at h
  | cons c cs ih =>
    cases i with
    | zero => rfl
    | succ j => exact ih j (by simpa using Nat.lt_of_succ_lt_succ h)

/-! ### Claim theorems -/

/-- Claim C1, counterexample: on the two-character input "(a" (bytes 40, 97)
the title-case formatter of the code leaves the input unchanged, because the
uppercase map is applied to the opening parenthesis, the first character of
the run, and the letter a is then lowercased; the claim as stated (modelled by
specTitleClaim, which uppercases the first letter of each run even when
non-letter characters precede it in the run) demands "(A" (bytes 40, 65).
The two outputs differ at position 1. -/
theorem title_first_letter_cex :
    TitleCaseFormatter.format [40, 97] = [40, 97] ∧
    specTitleClaim [40, 97] = [40, 65] ∧
    TitleCaseFormatter.format [40, 97] ≠ specTitleClaim [40, 97] := by
  decide

/-- Claim C1, amended: for every string s, TITLE(s) has the length of s,
preserves every whitespace character verbatim, applies the uppercase map to
exactly the first character of each maximal run of non-whitespace characters
(the character whose position is 0 or whose predecessor is whitespace), and
applies the lowercase map to every other character of such a run. -/
theorem title_run_structure (s : List Nat) :
    (TitleCaseFormatter.format s).length = s.length ∧
    ∀ i, i < s.length →
      (TitleCaseFormatter.format s).getD i 0 =
        (if isspace (s.getD i 0) = true then s.getD i 0
         else if i = 0 ∨ isspace (s.getD (i - 1) 0) = true then toupper (s.getD i 0)
         else tolower (s.getD i 0)) := by
  refine ⟨titleAux_length true s, fun i hi => ?_⟩
  have hcap : (capAt true s i = true) = (i = 0 ∨ isspace (s.getD (i - 1) 0) = true) := by
    cases i with
    | zero => simp [capAt]
    | succ j => simp [capAt]
  rw [show TitleCaseFormatter.format s = titleAux true s from rfl,
    titleAux_getD true s i hi]
  by_cases h1 : isspace (s.getD i 0) = true
  · rw [if_pos h1, if_pos h1]
  · rw [if_neg h1, if_neg h1]
    by_cases h2 : capAt true s i = true
    · rw [if_pos h2, if_pos (cast hcap h2)]
    · rw [if_neg h2, if_neg (fun hh => h2 (cast hcap.symm hh))]

/-- Claim C1, witness of the amended theorem at the input "(a": position 1 is
not a run start, so the letter a is lowercased. -/
theorem title_run_structure_witness :
    (1 : Nat) < ([40, 97] : List Nat).length ∧
    (TitleCaseFormatter.format [40, 97]).getD 1 0 =
      (if isspace (([40, 97] : List Nat).getD 1 0) = true then ([40, 97] : List Nat).getD 1 0
       else if (1 : Nat) = 0 ∨ isspace (([40, 97] : List Nat).getD (1 - 1) 0) = true then
         toupper (([40, 97] : List Nat).getD 1 0)
       else tolower (([40, 97] : List Nat).getD 1 0)) :=
  ⟨by decide, (title_run_structure [40, 97]).2 1 (by decide)⟩

/-- Claim C2: selector 1 installs the uppercase strategy, 2 the lowercase
strategy and 3 the title-case strategy, each with no diagnostic; any other
selector installs no strategy, the processor stays unconfigured, the
diagnostic notice is printed and the input is printed unchanged. -/
theorem selector_mapping (input : List Nat) (choice : Int) :
    runMain input 1 = { notice := none, result := UpperCaseFormatter.format input } ∧
    runMain input 2 = { notice := none, result := LowerCaseFormatter.format input } ∧
    runMain input 3 = { notice := none, result := TitleCaseFormatter.format input } ∧
    (choice ≠ 1 → choice ≠ 2 → choice ≠ 3 →
      (switchCase choice).1 = TextProcessor.new ∧
      runMain input choice =
        { notice := some "Invalid choice. Using default (no formatting).\n",
          result := input }) := by
  refine ⟨?_, ?_, ?_, fun h1 h2 h3 => ?_⟩
  · simp [runMain, switchCase, TextProcessor.new, TextProcessor.setFormatter,
      TextProcessor.format, Formatter.format]
  · simp [runMain, switchCase, TextProcessor.new, TextProcessor.setFormatter,
      TextProcessor.format, Formatter.format]
  · simp [runMain, switchCase, TextProcessor.new, TextProcessor.setFormatter,
      TextProcessor.format, Formatter.format]
  · have hsw : switchCase choice =
        (TextProcessor.new, some "Invalid choice. Using default (no formatting).\n") := by
      rw [switchCase, if_neg h1, if_neg h2, if_neg h3]
    exact ⟨by rw [hsw], by simp [runMain, hsw, TextProcessor.format, TextProcessor.new]⟩

/-- Claim C2, witness at selector 4 and input "Hi" (bytes 72, 105): the
processor stays unconfigured, the diagnostic is printed, the input is
unchanged. -/
theorem selector_mapping_witness :
    (4 : Int) ≠ 1 ∧ (4 : Int) ≠ 2 ∧ (4 : Int) ≠ 3 ∧
    ((switchCase 4).1 = TextProcessor.new ∧
     runMain [72, 105] 4 =
       { notice := some "Invalid choice. Using default (no formatting).\n",
         result := [72, 105] }) :=
  ⟨by decide, by decide, by decide,
   (selector_mapping [72, 105] 4).2.2.2 (by decide) (by decide) (by decide)⟩

/-- Claim C3: with no strategy installed the processor returns the input
unchanged, including the empty string, and with a strategy installed it
returns exactly that strategy applied to the input; in both cases the call is
a total function producing a result. -/
theorem processor_identity_fallback (text : List Nat) (f : Formatter) :
    TextProcessor.format { formatter := none } text = text ∧
    TextProcessor.format { formatter := none } [] = [] ∧
    TextProcessor.format { formatter := some f } text = f.format text :=
  ⟨rfl, rfl, rfl⟩

/-- Claim C4: on an ASCII string, the uppercase formatter keeps the length,
maps every alphabetic character through the uppercase map, leaves every
non-alphabetic character unchanged, and its output holds no lowercase
letter. -/
theorem upper_spec (s : List Nat) (_ascii : ∀ c ∈ s, c < 128) :
    (UpperCaseFormatter.format s).length = s.length ∧
    (∀ i, i < s.length →
      (UpperCaseFormatter.format s).getD i 0 =
        (if isalpha (s.getD i 0) = true then toupper (s.getD i 0) else s.getD i 0)) ∧
    (∀ c ∈ UpperCaseFormatter.format s, islower c = false) := by
  refine ⟨by simp [UpperCaseFormatter.format], fun i hi => ?_, fun c hc => ?_⟩
  · rw [UpperCaseFormatter.format, map_getD toupper s i hi]
    by_cases ha : isalpha (s.getD i 0) = true
    · rw [if_pos ha]
    · rw [if_neg ha, toupper_eq_of_not_alpha (Bool.not_eq_true _ |>.mp ha)]
  · obtain ⟨a, _, rfl⟩ := List.mem_map.mp hc
    exact islower_toupper a

/-- Claim C4, witness at the ASCII input "He!" (bytes 72, 101, 33). -/
theorem upper_spec_witness :
    (∀ c ∈ ([72, 101, 33] : List Nat), c < 128) ∧
    ((UpperCaseFormatter.format [72, 101, 33]).length = ([72, 101, 33] : List Nat).length ∧
     (∀ i, i < ([72, 101, 33] : List Nat).length →
       (UpperCaseFormatter.format [72, 101, 33]).getD i 0 =
         (if isalpha (([72, 101, 33] : List Nat).getD i 0) = true then
            toupper (([72, 101, 33] : List Nat).getD i 0)
          else ([72, 101, 33] : List Nat).getD i 0)) ∧
     (∀ c ∈ UpperCaseFormatter.format [72, 101, 33], islower c = false)) :=
  ⟨by decide, upper_spec [72, 101, 33] (by decide)⟩

/-- Claim C5: on an ASCII string, the lowercase formatter keeps the length,
maps every alphabetic character through the lowercase map, leaves every
non-alphabetic character unchanged, and its output holds no uppercase
letter. -/
theorem lower_spec (s : List Nat) (_ascii : ∀ c ∈ s, c < 128) :
    (LowerCaseFormatter.format s).length = s.length ∧
    (∀ i, i < s.length →
      (LowerCaseFormatter.format s).getD i 0 =
        (if isalpha (s.getD i 0) = true then tolower (s.getD i 0) else s.getD i 0)) ∧
    (∀ c ∈ LowerCaseFormatter.format s, isupper c = false) := by
  refine ⟨by simp [LowerCaseFormatter.format], fun i hi => ?_, fun c hc => ?_⟩
  · rw [LowerCaseFormatter.format, map_getD tolower s i hi]
    by_cases ha : isalpha (s.getD i 0) = true
    · rw [if_pos ha]
    · rw [if_neg ha, tolower_eq_of_not_alpha (Bool.not_eq_true _ |>.mp ha)]
  · obtain ⟨a, _, rfl⟩ := List.mem_map.mp hc
    exact isupper_tolower a

/-- Claim C5, witness at the ASCII input "He!" (bytes 72, 101, 33). -/
theorem lower_spec_witness :
    (∀ c ∈ ([72, 101, 33] : List Nat), c < 128) ∧
    ((LowerCaseFormatter.format [72, 101, 33]).length = ([72, 101, 33] : List Nat).length ∧
     (∀ i, i < ([72, 101, 33] : List Nat).length →
       (LowerCaseFormatter.format [72, 101, 33]).getD i 0 =
         (if isalpha (([72, 101, 33] : List Nat).getD i 0) = true then
            tolower (([72, 101, 33] : List Nat).getD i 0)
          else ([72, 101, 33] : List Nat).getD i 0)) ∧
     (∀ c ∈ LowerCaseFormatter.format [72, 101, 33], isupper c = false)) :=
  ⟨by decide, lower_spec [72, 101, 33] (by decide)⟩

/-- Claim C6: the title-case transformation is the single left-to-right pass
with one boolean flag, started with the flag set: whitespace passes through
and sets the flag, a non-whitespace character seen with the flag set is
uppercased and clears the flag, and any other character is lowercased; in
particular leading whitespace keeps the flag set, empty input yields empty
output, and a single-character word is uppercased. -/
theorem title_single_pass :
    (∀ b, titleAux b [] = []) ∧
    (∀ b c cs, isspace c = true → titleAux b (c :: cs) = c :: titleAux true cs) ∧
    (∀ c cs, isspace c = false → titleAux true (c :: cs) = toupper c :: titleAux false cs) ∧
    (∀ c cs, isspace c = false → titleAux false (c :: cs) = tolower c :: titleAux false cs) ∧
    (∀ s, TitleCaseFormatter.format s = titleAux true s) ∧
    TitleCaseFormatter.format [] = [] ∧
    (∀ c, isspace c = false → TitleCaseFormatter.format [c] = [toupper c]) ∧
    (∀ ws s, (∀ c ∈ ws, isspace c = true) →
      TitleCaseFormatter.format (ws ++ s) = ws ++ TitleCaseFormatter.format s) := by
  refine ⟨fun b => rfl, fun b c cs h => by simp [titleAux, h],
    fun c cs h => by simp [titleAux, h], fun c cs h => by simp [titleAux, h],
    fun s => rfl, rfl, fun c h => by simp [TitleCaseFormatter.format, titleAux, h],
    fun ws s h => titleAux_ws_append ws s h⟩

/-- Claim C6, witness: the pass steps at concrete characters (space 32, tab 9,
letters 97 and 98), and the edge cases at concrete inputs. -/
theorem title_single_pass_witness :
    isspace 32 = true ∧
    titleAux false [32, 98] = 32 :: titleAux true [98] ∧
    isspace 97 = false ∧
    TitleCaseFormatter.format [97] = [toupper 97] ∧
    (∀ c ∈ ([32, 9] : List Nat), isspace c = true) ∧
    TitleCaseFormatter.format ([32, 9] ++ [97]) = [32, 9] ++ TitleCaseFormatter.format [97] :=
  ⟨by decide, title_single_pass.2.1 false 32 [98] (by decide), by decide,
   title_single_pass.2.2.2.2.2.2.1 97 (by decide), by decide,
   title_single_pass.2.2.2.2.2.2.2 [32, 9] [97] (by decide)⟩

/-- Claim C7: each of the three transformations is idempotent. -/
theorem formatters_idempotent (s : List Nat) :
    UpperCaseFormatter.format (UpperCaseFormatter.format s) = UpperCaseFormatter.format s ∧
    LowerCaseFormatter.format (LowerCaseFormatter.format s) = LowerCaseFormatter.format s ∧
    TitleCaseFormatter.format (TitleCaseFormatter.format s) = TitleCaseFormatter.format s := by
  refine ⟨?_, ?_, titleAux_idem true s⟩
  · simp only [UpperCaseFormatter.format, List.map_map, Function.comp_def, toupper_toupper]
  · simp only [LowerCaseFormatter.format, List.map_map, Function.comp_def, tolower_tolower]

/-- Claim C8: the three transformations are total and deterministic functions
of the character sequence: on every input, including the empty one, each
produces a result of the same length, and equal inputs give equal outputs. -/
theorem formatters_total_deterministic (s t : List Nat) :
    (UpperCaseFormatter.format s).length = s.length ∧
    (LowerCaseFormatter.format s).length = s.length ∧
    (TitleCaseFormatter.format s).length = s.length ∧
    (s = t → UpperCaseFormatter.format s = UpperCaseFormatter.format t) ∧
    (s = t → LowerCaseFormatter.format s = LowerCaseFormatter.format t) ∧
    (s = t → TitleCaseFormatter.format s = TitleCaseFormatter.format t) ∧
    UpperCaseFormatter.format [] = [] ∧
    LowerCaseFormatter.format [] = [] ∧
    TitleCaseFormatter.format [] = [] :=
  ⟨by simp [UpperCaseFormatter.format], by simp [LowerCaseFormatter.format],
   titleAux_length true s, fun h => by rw [h], fun h => by rw [h], fun h => by rw [h],
   rfl, rfl, rfl⟩

/-- Claim C8, witness at the one-character input with byte 104. -/
theorem formatters_total_deterministic_witness :
    ([104] : List Nat) = [104] ∧
    TitleCaseFormatter.format [104] = TitleCaseFormatter.format [104] :=
  ⟨rfl, (formatters_total_deterministic [104] [104]).2.2.2.2.2.1 rfl⟩

/-- Claim C9: the title-case transformation preserves string structure: the
output has the length of the input, and a position holds a whitespace
character in the output exactly when it does in the input. -/
theorem title_preserves_structure (s : List Nat) :
    (TitleCaseFormatter.format s).length = s.length ∧
    ∀ i, i < s.length →
      isspace ((TitleCaseFormatter.format s).getD i 0) = isspace (s.getD i 0) := by
  refine ⟨titleAux_length true s, fun i hi => ?_⟩
  rw [show TitleCaseFormatter.format s = titleAux true s from rfl,
    titleAux_getD true s i hi]
  by_cases h1 : isspace (s.getD i 0) = true
  · rw [if_pos h1]
  · rw [if_neg h1]
    by_cases h2 : capAt true s i = true
    · rw [if_pos h2, isspace_toupper]
    · rw [if_neg h2, isspace_tolower]

/-- Claim C9, witness at the input " a" (bytes 32, 97) and position 1. -/
theorem title_preserves_structure_witness :
    (1 : Nat) < ([32, 97] : List Nat).length ∧
    isspace ((TitleCaseFormatter.format [32, 97]).getD 1 0) =
      isspace (([32, 97] : List Nat).getD 1 0) :=
  ⟨by decide, (title_preserves_structure [32, 97]).2 1 (by decide)⟩

/-- Claim C10: a call of the format method leaves the installed-strategy slot
of the processor exactly as it was, and a second call on the same text
returns the same result as the first. -/
theorem format_read_only (p : TextProcessor) (text : List Nat) :
    (p.formatCall text).2 = p ∧
    ((p.formatCall text).2.formatCall text).1 = (p.formatCall text).1 :=
  ⟨rfl, rfl⟩

end TextFormatter
